import Mathlib

/-!
# Verification of the `mirror` fortune engine

Shallow embedding of `src/fortune_engine.py` (the fortune-composition and
memory-management pipeline) and proofs of the specification claims about it.

Modelling conventions:
* Python strings are Lean `String`s (in this toolchain a `String` wraps a
  `List Char`, and all helpers below are defined through that list, so every
  definition is executable and kernel-reducible).
* Python numbers are modelled as `ℚ`.  The two float comparisons the claims
  touch (`avg >= 4.2` / `avg >= 2.6` in `compute_personality_signature` and
  `count > len(words) * 0.6` in the repetition detector) are exact in IEEE
  doubles for the integer/decimal inputs involved — `n * 0.6` always rounds to
  the double nearest `3n/5`, and an integer count differs from a non-integer
  threshold by at least `1/5` — so the rational model decides every comparison
  exactly as the Python code does.  Non-finite floats (`nan`/`inf`) are outside
  the model.
* Python dict values are the inductive `PyVal` (number, string or dict — the
  JSON-shaped values this code consumes); a dict is an insertion-ordered
  association list, mirroring Python's ordered dicts.
* `random.choice(lst)` is modelled as `lst[i % len(lst)]` for an
  environment-supplied index `i`; `datetime.now()` pieces (ISO timestamp,
  formatted date, hour) are environment fields.  All theorems quantify over
  the environment.
* Exceptions are modelled with `Except Unit`; a Python `try/except` is a
  `match` on the embedded body's result.
-/

namespace Mirror

/-- Python's whitespace test (`str.strip` / `str.split` whitespace class),
modelled by `Char.isWhitespace`. -/
def isWs (c : Char) : Bool := c.isWhitespace

/-- `s.strip()`: drop leading and trailing whitespace. -/
def pyStrip (s : String) : String :=
  ⟨((s.data.dropWhile isWs).reverse.dropWhile isWs).reverse⟩

/-- `s.lower()` (ASCII case mapping, which is all the engine's text uses). -/
def pyLower (s : String) : String := ⟨s.data.map Char.toLower⟩

/-- Split a character list at every character satisfying `p`, keeping empty
pieces (the semantics of Python `s.split(sep)` for a one-character separator,
with `p` the separator test). -/
def splitPred (p : Char → Bool) : List Char → List String
  | [] => [""]
  | d :: t =>
    let r := splitPred p t
    if p d then "" :: r
    else
      match r with
      | h :: t' => ⟨d :: h.data⟩ :: t'
      | [] => [⟨[d]⟩]

/-- Python `s.split(c)` for a one-character separator `c`. -/
def splitChar (c : Char) (s : String) : List String :=
  splitPred (fun d => d = c) s.data

/-- `s.split()` with no argument: split on whitespace runs, dropping empty
pieces. -/
def pyWords (s : String) : List String :=
  (splitPred isWs s.data).filter (fun w => !w.data.isEmpty)

/-- `s[:n]` on a Python string (character prefix). -/
def pyTake (s : String) (n : Nat) : String := ⟨s.data.take n⟩

/-- `s[n:]` on a Python string (character suffix). -/
def pyDrop (s : String) (n : Nat) : String := ⟨s.data.drop n⟩

/-- `lst[-n:]` on a Python list: the last `n` elements, order preserved. -/
def pyTakeLast {α : Type} (n : Nat) (l : List α) : List α :=
  (l.reverse.take n).reverse

/-- `s.rsplit(sep, 1)[0]` for a one-character separator: everything before the
last occurrence of `c`, or the whole string when `c` does not occur. -/
def pyRsplitBefore (c : Char) (s : String) : String :=
  if s.data.contains c then
    ⟨((s.data.reverse.dropWhile (fun d => d ≠ c)).drop 1).reverse⟩
  else s

/-- `pat in s` for Python strings: substring containment. -/
def isSub (pat s : String) : Bool :=
  go s.data
where
  go : List Char → Bool
    | [] => pat.data.isPrefixOf []
    | c :: t => pat.data.isPrefixOf (c :: t) || go t

/-- Non-overlapping occurrence count, the scan behind Python's `s.count(pat)`
(fuel-driven so that it is structurally recursive and kernel-reducible; the
fuel is always instantiated with the length of the scanned string, which
bounds the recursion depth). -/
def countOccAux (pat : List Char) : Nat → List Char → Nat
  | 0, _ => 0
  | _ + 1, [] => 0
  | fuel + 1, c :: t =>
    if pat.isPrefixOf (c :: t) then 1 + countOccAux pat fuel ((c :: t).drop pat.length)
    else countOccAux pat fuel t

/-- `s.count(pat)` (Python returns `len(s)+1` for an empty pattern). -/
def pyCountSub (s pat : String) : Nat :=
  if pat.data.isEmpty then s.data.length + 1
  else countOccAux pat.data s.data.length s.data

/-- `str.title()` for ASCII text: uppercase each letter that follows a
non-letter, lowercase the rest. -/
def pyTitle (s : String) : String :=
  ⟨(s.data.foldl
      (fun (acc : List Char × Bool) c =>
        if c.isAlpha then
          ((if acc.2 then c.toLower else c.toUpper) :: acc.1, true)
        else (c :: acc.1, false))
      ([], false)).1.reverse⟩

/-- Digits of a numeric literal accumulated into a `Nat`;
returns `none` when the character list is empty or holds a non-digit. -/
def digitsToNat? : List Char → Option Nat
  | [] => none
  | l =>
    l.foldl
      (fun acc c =>
        match acc with
        | none => none
        | some n => if c.isDigit then some (n * 10 + (c.toNat - '0'.toNat)) else none)
      (some 0)

/-- Model of Python `int(str)`: optional surrounding whitespace, optional
sign, then decimal digits.  (Digit-group underscores, accepted by CPython,
are not modelled; no input in this development uses them.) -/
def pyInt? (s : String) : Option Int :=
  let l := (s.data.dropWhile isWs).reverse.dropWhile isWs |>.reverse
  match l with
  | '-' :: rest => (digitsToNat? rest).map (fun n => -(n : Int))
  | '+' :: rest => (digitsToNat? rest).map (fun n => (n : Int))
  | rest => (digitsToNat? rest).map (fun n => (n : Int))

/-!
## Python values

The JSON-shaped values the engine consumes: numbers, strings and
(insertion-ordered) dicts.  A dict is an association list; Python guarantees
key uniqueness, which theorems assume where it matters.
-/

inductive PyVal : Type where
  | num (q : ℚ)
  | str (s : String)
  | dict (items : List (String × PyVal))

/-- Python truthiness for the values above (`0`, `""` and `{}` are falsy). -/
def pyTruthy : PyVal → Bool
  | .num q => q != 0
  | .str s => !s.data.isEmpty
  | .dict items => !items.isEmpty

/-- `d.get(key)` on a dict's item list: first (only) binding of `key`. -/
def pyGet (items : List (String × PyVal)) (key : String) : Option PyVal :=
  (items.find? (fun kv => kv.1 = key)).map (·.2)

/-- Model of Python `float(str)`: optional surrounding whitespace, optional
sign, decimal digits with an optional fractional part (at least one digit
overall), and an optional decimal exponent.  `nan`/`inf` literals are outside
the rational model. -/
def pyFloatStr? (s : String) : Option ℚ :=
  let l := (s.data.dropWhile isWs).reverse.dropWhile isWs |>.reverse
  let core : List Char → Option ℚ := fun l =>
    let mant := l.takeWhile (fun c => c ≠ 'e' ∧ c ≠ 'E')
    let rest := l.drop mant.length
    let intPart := mant.takeWhile (fun c => c ≠ '.')
    let fracPart := if mant.length > intPart.length then mant.drop (intPart.length + 1) else []
    if intPart.isEmpty ∧ fracPart.isEmpty then none
    else
      let iv : Option Nat := if intPart.isEmpty then some 0 else digitsToNat? intPart
      let fv : Option Nat := if fracPart.isEmpty then some 0 else digitsToNat? fracPart
      match iv, fv with
      | some i, some f =>
        let base : ℚ := (i : ℚ) + (f : ℚ) / ((10 : ℚ) ^ fracPart.length)
        match rest with
        | [] => some base
        | _ :: expPart =>
          match expPart with
          | '-' :: ds => (digitsToNat? ds).map (fun e => base / ((10 : ℚ) ^ e))
          | '+' :: ds => (digitsToNat? ds).map (fun e => base * ((10 : ℚ) ^ e))
          | ds => (digitsToNat? ds).map (fun e => base * ((10 : ℚ) ^ e))
      | _, _ => none
  match l with
  | '-' :: rest => (core rest).map (fun q => -q)
  | '+' :: rest => core rest
  | rest => core rest

/-- Python `float(v)` on a `PyVal`: numbers pass through, numeric-looking
strings parse, anything else raises (modelled as `none`). -/
def pyFloat? : PyVal → Option ℚ
  | .num q => some q
  | .str s => pyFloatStr? s
  | .dict _ => none

/-!
## Astrology helpers — `fortune_engine.analyze_zodiac` (lines 140-169)
-/

/-- One row of the sign table: `((m1,d1,m2,d2), sign, element)`. -/
structure SignRange where
  m1 : Int
  d1 : Int
  m2 : Int
  d2 : Int
  sign : String
  element : String
deriving Repr, DecidableEq

/-- The `signs` table inside `analyze_zodiac`, in source order. -/
def signsTable : List SignRange :=
  [⟨1, 20, 2, 18, "Aquarius", "Air"⟩,
   ⟨2, 19, 3, 20, "Pisces", "Water"⟩,
   ⟨3, 21, 4, 19, "Aries", "Fire"⟩,
   ⟨4, 20, 5, 20, "Taurus", "Earth"⟩,
   ⟨5, 21, 6, 20, "Gemini", "Air"⟩,
   ⟨6, 21, 7, 22, "Cancer", "Water"⟩,
   ⟨7, 23, 8, 22, "Leo", "Fire"⟩,
   ⟨8, 23, 9, 22, "Virgo", "Earth"⟩,
   ⟨9, 23, 10, 22, "Libra", "Air"⟩,
   ⟨10, 23, 11, 21, "Scorpio", "Water"⟩,
   ⟨11, 22, 12, 21, "Sagittarius", "Fire"⟩,
   ⟨12, 22, 1, 19, "Capricorn", "Earth"⟩]

/-- The `for`-loop body of `analyze_zodiac`: first matching range wins,
otherwise `("Unknown", "Void")`. -/
def zodiacFromMonthDay (month day : Int) : String × String :=
  match signsTable.find?
      (fun r => (month = r.m1 ∧ r.d1 ≤ day) ∨ (month = r.m2 ∧ day ≤ r.d2)) with
  | some r => (r.sign, r.element)
  | none => ("Unknown", "Void")

/-- `fortune_engine.analyze_zodiac`: split on `"-"`, require at least three
fields, parse fields 1 and 2 as ints (any parse failure, like the original
`try/except`, yields `("Unknown", "Void")`), then scan the sign table. -/
def analyze_zodiac (birthdate : String) : String × String :=
  match splitChar '-' birthdate with
  | _ :: p1 :: p2 :: _ =>
    match pyInt? p1, pyInt? p2 with
    | some month, some day => zodiacFromMonthDay month day
    | _, _ => ("Unknown", "Void")
  | _ => ("Unknown", "Void")

/-- In `generate_fortune`/`generate_ml_fortune` the birthdate value comes out
of a dict; a non-string raises `AttributeError` inside `analyze_zodiac`'s
`try`, which the function converts to `("Unknown", "Void")`. -/
def analyzeZodiacVal : PyVal → String × String
  | .str s => analyze_zodiac s
  | _ => ("Unknown", "Void")

/-- `astrology_hint` (fortune_engine lines 171-180): element → hint,
default `""`. -/
def astrology_hint (element : String) : String :=
  match element with
  | "Fire" => "your passion lights hidden crossroads."
  | "Water" => "your intuition echoes in quiet pools."
  | "Air" => "your thoughts drift toward new horizons."
  | "Earth" => "your steps root change into practice."
  | "Void" => "the cosmos watches without shape."
  | _ => ""

/-!
## Personality signature — `compute_personality_signature` (lines 186-219)
-/

/-- The numeric entries of a profile, in iteration order, with parsed values
(the `vals` / `numeric_map` of the source). -/
def numericEntries (items : List (String × PyVal)) : List (String × ℚ) :=
  items.filterMap (fun kv => (pyFloat? kv.2).map (fun q => (kv.1, q)))

/-- `max(numeric_map.keys(), key=lambda k: numeric_map[k])`: Python's `max`
keeps the first element on ties, i.e. a later entry replaces the current best
only when strictly greater. -/
def pyMaxBy (hd : String × ℚ) (tl : List (String × ℚ)) : String × ℚ :=
  tl.foldl (fun best kv => if best.2 < kv.2 then kv else best) hd

/-- `compute_personality_signature`: non-dict or numeric-free profiles give
`("neutral", "unknown")`; otherwise the three-tier average decides the tone
and the first-seen maximal numeric entry is dominant.  (The source's
`try/except` around `max` can never fire — `numeric_map` is non-empty exactly
when `vals` is.) -/
def compute_personality_signature (profile : PyVal) : String × String :=
  match profile with
  | .dict items =>
    if items.isEmpty then ("neutral", "unknown")
    else
      match numericEntries items with
      | [] => ("neutral", "unknown")
      | n :: ns =>
        let vals := (n :: ns).map (·.2)
        let avg : ℚ := vals.sum / (vals.length : ℚ)
        let tone :=
          if avg ≥ 42 / 10 then "bright"
          else if avg ≥ 26 / 10 then "neutral"
          else "dark"
        (tone, (pyMaxBy n ns).1)
  | _ => ("neutral", "unknown")

/-- `temporal_tone_adjust` (lines 221-231) as a function of the current hour:
note the early `return`s — at night `bright` and `neutral` shift down and the
morning rule is not reached. -/
def temporal_tone_adjust (hour : Nat) (tone : String) : String :=
  if (22 ≤ hour ∨ hour ≤ 5) ∧ tone = "bright" then "neutral"
  else if (22 ≤ hour ∨ hour ≤ 5) ∧ tone = "neutral" then "dark"
  else if (6 ≤ hour ∧ hour ≤ 10) ∧ tone = "dark" then "neutral"
  else tone

/-!
## Vocabulary (`VOCAB`, lines 238-273) and the theme classifier
-/

def vocabThemes : List String :=
  ["reflection", "destiny", "memory", "light", "shadow", "echo", "flux", "grace",
   "illusion", "time", "horizon", "truth", "dream", "origin", "stillness", "threshold",
   "tide", "constellation", "pulse", "garden"]

def vocabAdjectives : List String :=
  ["celestial", "velvet", "haunting", "luminous", "ashen", "resonant",
   "ancient", "radiant", "forgotten", "opalescent", "gilded", "nocturnal",
   "transcendent", "serpentine", "quiet"]

def vocabTonesBright : List String :=
  ["A golden light crowns your choices today.",
   "The mirror smiles upon this turning of the page.",
   "New paths unfold just beyond your steady step."]

def vocabTonesNeutral : List String :=
  ["Balance lingers at the glass; take another breath.",
   "A quiet clarity ripples beneath your surface.",
   "Consider the space between intent and action."]

def vocabTonesDark : List String :=
  ["Shadows stir where the mirror does not reach.",
   "A hush warns: not all reflections are truth.",
   "Tread with curiosity and measured caution tonight."]

/-- `VOCAB["tones"].get(tone, VOCAB["tones"]["neutral"])`. -/
def vocabTonesFor (tone : String) : List String :=
  match tone with
  | "bright" => vocabTonesBright
  | "neutral" => vocabTonesNeutral
  | "dark" => vocabTonesDark
  | _ => vocabTonesNeutral

def vocabOmens : List String :=
  ["a bird's wing caught in the current of morning",
   "the scent of rain on ancient stone",
   "a laugh from a stranger who knows your secret",
   "a folded note you've not yet found",
   "a glint that isn't yours"]

/-- `random.choice(lst)`, driven by an environment-supplied index. -/
def pyChoice (idx : Nat) (lst : List String) : String :=
  lst.getD (idx % lst.length) ""

/-- Stable insertion into a count-descending list: the new element goes in
front of the first element whose count does not exceed it. -/
def insDesc (a : String × Nat) : List (String × Nat) → List (String × Nat)
  | [] => [a]
  | b :: t => if b.2 ≤ a.2 then a :: b :: t else b :: insDesc a t

/-- `sorted(counts.items(), key=lambda kv: kv[1], reverse=True)`.  Python's
`sorted` is a stable sort; a stable count-descending sort of a list is unique,
and this stable insertion sort computes it (and, unlike a well-founded merge
sort, reduces in the kernel). -/
def sortDesc : List (String × Nat) → List (String × Nat)
  | [] => []
  | a :: t => insDesc a (sortDesc t)

/-- The `counts` dict of `guess_theme_from_text`, in vocabulary order. -/
def themeCounts (text : String) : List (String × Nat) :=
  vocabThemes.map (fun t => (t, pyCountSub (pyLower text) t))

/-- `guess_theme_from_text` (lines 275-285): highest substring count wins,
ties resolved by the stable sort (vocabulary order); a random theme only when
every count is zero (`top` is never empty — the vocabulary has 20 themes). -/
def guess_theme_from_text (randIdx : Nat) (text : String) : String :=
  match sortDesc (themeCounts text) with
  | top0 :: _ => if 0 < top0.2 then top0.1 else pyChoice randIdx vocabThemes
  | [] => pyChoice randIdx vocabThemes

/-!
## Memory store (`load_memory`/`save_memory`/`append_memory_entry`)

The persisted JSON document is a mapping user-name → history list.  Each
read re-loads it and each mutation rewrites it atomically
(`load-modify-save`), so the whole store is threaded through the model as an
insertion-ordered association list; `load`/`save` themselves are the identity
on that state and I/O failure is below the embedding.
-/

/-- A persisted history entry (every field is always written by
`append_memory_entry`). -/
structure Entry where
  timestamp : String
  fortune : String
  zodiac : String
  tone : String
  theme : String
deriving Repr, DecidableEq

/-- The persisted store: user name → oldest-first history. -/
abbrev Store : Type := List (String × List Entry)

/-- `mem.get(name, [])` for a string key. -/
def storeGet (mem : Store) (name : String) : List Entry :=
  ((mem.find? (fun kv => kv.1 = name)).map (·.2)).getD []

/-- `mem[name] = hist`: replace in place if present, else append the new key
(Python dict insertion order). -/
def storeSet (mem : Store) (name : String) (hist : List Entry) : Store :=
  if (mem.find? (fun kv => kv.1 = name)).isSome then
    mem.map (fun kv => if kv.1 = name then (name, hist) else kv)
  else mem ++ [(name, hist)]

/-- `KEEP_HISTORY` (line 33). -/
def KEEP_HISTORY : Nat := 12

/-- `mem.get(name, [])` where `name` is an arbitrary dict value:
an unhashable value (a dict) raises `TypeError`; a hashable non-string never
equals a JSON string key, so it finds nothing. -/
def storeGetVal (mem : Store) (name : PyVal) : Except Unit (List Entry) :=
  match name with
  | .dict _ => .error ()
  | .str s => .ok (storeGet mem s)
  | .num _ => .ok []

/-!
## Environment

Everything the pipeline reads from outside pure data: the clock, the random
number generator, the optional transformers backend, and JSON/float rendering
(which only feeds prompt text, never control flow).  All theorems quantify
over an arbitrary environment.
-/

structure Env where
  /-- `datetime.now().hour` (drives `temporal_tone_adjust`). -/
  hour : Nat
  /-- `datetime.now().isoformat()` (the appended entry's timestamp). -/
  nowIso : String
  /-- `datetime.now().strftime("%B %d, %Y")` (the composed fortune's date). -/
  dateStr : String
  /-- Indices for the five `random.choice` sites. -/
  randTheme : Nat
  randAdj : Nat
  randOmen : Nat
  randLine : Nat
  randGuess : Nat
  /-- `TRANSFORMERS_AVAILABLE` (line 43; `False` in the shipped configuration
  because `FORCE_RULE_BASED = True`, but the branch exists and the claims
  quantify over it). -/
  transformersAvailable : Bool
  /-- Whether `init_model()` succeeds once the library is available. -/
  initModelOk : Bool
  /-- The transformer backend: tokenize + `model.generate` + decode, i.e. the
  raw candidate text produced for a prompt, or an exception. -/
  mlGen : String → Except Unit String
  /-- `json.dumps` (its float rendering is outside the rational model; the
  result only ever feeds prompt text). -/
  dumps : PyVal → String
  /-- `str()` of a number (float/int repr; only feeds composed text). -/
  numRepr : ℚ → String

/-- Python `str(v)` / f-string interpolation of a dict value. -/
def pyStrVal (env : Env) : PyVal → String
  | .str s => s
  | .num q => env.numRepr q
  | .dict items => env.dumps (.dict items)

/-- The entry `append_memory_entry` constructs: timestamped now, with a falsy
(`""`) explicit theme falling back to `guess_theme_from_text`, like `None`. -/
def entryOf (env : Env) (fortuneText zodiac tone : String) (theme : Option String) : Entry :=
  { timestamp := env.nowIso
    fortune := fortuneText
    zodiac := zodiac
    tone := tone
    theme :=
      match theme with
      | some t => if t.data.isEmpty then guess_theme_from_text env.randGuess fortuneText else t
      | none => guess_theme_from_text env.randGuess fortuneText }

/-- `append_memory_entry` (lines 111-129).  The whole body sits in a
`try/except`: an unhashable name (a dict) raises `TypeError` at
`mem.get(name, [])`, is caught, and leaves the store untouched.  A numeric
name hashes but never equals a JSON string key, so it reads an empty history;
on save `json.dump` stringifies the key. -/
def append_memory_entry (env : Env) (name : PyVal) (fortuneText zodiac tone : String)
    (theme : Option String) (mem : Store) : Store :=
  let entry : Entry := entryOf env fortuneText zodiac tone theme
  match name with
  | .dict _ => mem
  | .str s => storeSet mem s (pyTakeLast KEEP_HISTORY (storeGet mem s ++ [entry]))
  | .num q => storeSet mem (env.numRepr q) (pyTakeLast KEEP_HISTORY [entry])

/-!
## Generated-text validator/cleaner
-/

/-- `max(word_counts.values())` for `Counter(words)` (0 on an empty list,
matching the source's guard). -/
def mostCommonCount (ws : List String) : Nat :=
  (ws.map (fun w => ws.count w)).foldr max 0

/-- The repetitive-junk test shared by the cleaner and the validator:
`len(words) > 5 and most_common_count > len(words) * 0.6`.  The float
comparison is exact here: `n * 0.6` rounds to the double nearest `3n/5`, and
an integer count is never within rounding error of a non-integer threshold,
so it is the rational test `5 * count > 3 * n`. -/
def repetitiveJunk (ws : List String) : Bool :=
  5 < ws.length && 3 * ws.length < 5 * mostCommonCount ws

/-- The first of `('.', '?', '!')` occurring in `t`, if any (the `for sep`
loop header with its `if sep in t` test). -/
def firstSep (t : String) : Option Char :=
  if t.data.contains '.' then some '.'
  else if t.data.contains '?' then some '?'
  else if t.data.contains '!' then some '!'
  else none

/-- `clean_generated_text` (lines 450-476).  Returned value `.ok s` is the
function's result; `.error ()` is the `IndexError` raised by `parts[0]` when
a separator occurs but every piece strips to nothing (e.g. on `"."`), which
callers catch. -/
def clean_generated_text (text : String) : Except Unit String :=
  let t := pyStrip text
  if t.data.isEmpty then .ok t
  else if repetitiveJunk (pyWords t) then .ok ""
  else
    match firstSep t with
    | some sep =>
      match ((splitChar sep t).map pyStrip).filter (fun p => !p.data.isEmpty) with
      | [] => .error ()
      | [p0] => .ok (pyStrip (p0 ++ ⟨[sep]⟩))
      | p0 :: p1 :: _ => .ok (pyStrip (p0 ++ ⟨[sep]⟩ ++ " " ++ p1 ++ ⟨[sep]⟩))
    | none =>
      .ok (if t.data.length ≤ 400 then t
           else pyRsplitBefore ' ' (pyTake t 400) ++ "...")

/-!
## Rule-based composer
-/

/-- `rule_based_fortune` (lines 287-316).  The name arrives as a raw dict
value and is interpolated with `str()` semantics; the history callback reads
the most recent entry's theme (every stored entry has one). -/
def rule_based_fortune (env : Env) (name : PyVal) (zodiac element tone dominant : String)
    (history : List Entry) : String :=
  let theme := pyChoice env.randTheme vocabThemes
  let adj := pyChoice env.randAdj vocabAdjectives
  let omen := pyChoice env.randOmen vocabOmens
  let tone1 := temporal_tone_adjust env.hour tone
  let toneLine := pyChoice env.randLine (vocabTonesFor tone1)
  let memoryHint :=
    match history.getLast? with
    | some e => "The mirror remembers a past theme of '" ++ e.theme ++ "'."
    | none => ""
  let astro := astrology_hint element
  "🪞 Mirror of " ++ pyTitle theme ++ " — " ++ env.dateStr ++ "\n\n" ++
    pyStrVal env name ++ ", the " ++ adj ++ " child of " ++ zodiac ++ ", " ++ toneLine ++ "\n" ++
    "Your " ++ dominant ++ " stirs the current of " ++ theme ++ ", and " ++ astro ++ "\n" ++
    "As " ++ omen ++ " passes, listen for the quiet next step.\n\n" ++
    memoryHint ++ "\n" ++
    "May your reflection reveal what your eyes do not."

/-!
## ML path and orchestrator
-/

/-- `json_snippet` (lines 439-448); serialization itself is the environment's
`dumps`, the truncation logic is the source's. -/
def json_snippet (env : Env) (d : PyVal) : String :=
  let s := env.dumps d
  if 240 < s.data.length then pyRsplitBefore ',' (pyTake s 240) ++ "..." else s

/-- `(user_profile.get("quiz") or user_profile).items()`: a truthy non-dict
`quiz` value raises `AttributeError` at `.items()` (before the function's
inner `try`), a falsy or missing one falls back to the whole profile. -/
def mlProfileItems (ud : List (String × PyVal)) : Except Unit (List (String × PyVal)) :=
  match pyGet ud "quiz" with
  | some q =>
    if pyTruthy q then
      match q with
      | .dict items => .ok items
      | _ => .error ()
    else .ok ud
  | none => .ok ud

/-- `generate_ml_fortune` (lines 366-433).  `.error ()` models every raise the
caller can see: unavailable/failed backend, a truthy non-dict quiz, an
unhashable name at `memory.get`, a generation exception, the cleaner's
`IndexError`, and the explicit `ValueError` on short/empty cleaned text.  On
success exactly one entry has been appended — the single
`append_memory_entry` call below, the last effect before `return` — and the
result is (text, new store). -/
def generate_ml_fortune (env : Env) (ud : List (String × PyVal)) (mem : Store) :
    Except Unit (String × Store) :=
  if !(env.transformersAvailable && env.initModelOk) then .error ()
  else
    let name := (pyGet ud "name").getD (.str "Wanderer")
    let birth := (pyGet ud "birthdate").getD (.str "1900-01-01")
    let zd := analyzeZodiacVal birth
    match mlProfileItems ud with
    | .error _ => .error ()
    | .ok items =>
      let clipped := items.filter (fun kv => kv.1 != "name" && kv.1 != "birthdate")
      let sig := compute_personality_signature (.dict clipped)
      let tone := temporal_tone_adjust env.hour sig.1
      match storeGetVal mem name with
      | .error _ => .error ()
      | .ok history =>
        let historyText :=
          if history.isEmpty then ""
          else String.intercalate "\n" ((pyTakeLast 5 history).map (·.fortune))
        let prompt :=
          "You are an artistic poetic oracle. Write a gentle, original fortune for " ++
            pyStrVal env name ++ ".\n" ++
          "Keep it short (1-3 sentences). Use evocative language, and do not repeat past fortunes verbatim.\n" ++
          "Zodiac: " ++ zd.1 ++ " (element: " ++ zd.2 ++ "). Tone: " ++ tone ++
            ". Dominant trait: " ++ sig.2 ++ ".\n" ++
          "Profile: " ++ json_snippet env (.dict clipped) ++ "\n" ++
          "Recent reflections:\n" ++ historyText ++ "\n" ++
          "Fortune:"
        match env.mlGen prompt with
        | .error _ => .error ()
        | .ok raw =>
          let gen0 :=
            if prompt.data.isPrefixOf raw.data then pyStrip (pyDrop raw prompt.data.length)
            else pyStrip raw
          match clean_generated_text gen0 with
          | .error _ => .error ()
          | .ok gen =>
            if gen.data.isEmpty || (pyStrip gen).data.length < 10 then .error ()
            else
              let mem1 := append_memory_entry env name gen zd.1 tone
                (some (guess_theme_from_text env.randGuess gen)) mem
              .ok (gen, mem1)

/-- The nested `_is_valid` of `generate_fortune` (lines 580-605). -/
def is_valid (text : String) : Bool :=
  if text.data.isEmpty then false
  else
    let t := pyStrip text
    if t.data.length < 10 then false
    else
      let low := pyLower t
      if isSub "unknown (element: void)" low || isSub "fortune: unknown (element: void)" low ||
          isSub "the mirror is silent" low then false
      else !repetitiveJunk (pyWords t)

/-- The fixed catastrophic-failure placeholder of `generate_fortune`. -/
def quietFallback : String := "The mirror is quiet right now. Try again in a little while."

/-- Result of one `generate_fortune` call: the returned string, the store
after the call, and (ghost instrumentation) how many times
`append_memory_entry` ran. -/
structure GenResult where
  fortune : String
  store : Store
  appends : Nat
deriving Repr

/-- The rule-based tail of `generate_fortune` (lines 617-634), entered with
the store and append count accumulated so far.  `history = load_memory()
.get(name, [])` raises on an unhashable name — the one statement on this path
that can reach the outer `except`. -/
def ruleBranch (env : Env) (ud : List (String × PyVal)) (mem : Store) (c : Nat) :
    Except Unit GenResult :=
  let name := (pyGet ud "name").getD (.str "Wanderer")
  let birth := (pyGet ud "birthdate").getD (.str "1900-01-01")
  let zd := analyzeZodiacVal birth
  let profileMap : PyVal :=
    match pyGet ud "quiz" with
    | some q => if pyTruthy q then q else .dict ud
    | none => .dict ud
  let sig := compute_personality_signature profileMap
  match storeGetVal mem name with
  | .error _ => .error ()
  | .ok history =>
    let rule := rule_based_fortune env name zd.1 zd.2 sig.1 sig.2 history
    if rule.data.isEmpty || (pyStrip rule).data.length < 20 then
      .ok ⟨quietFallback,
        append_memory_entry env name quietFallback zd.1 sig.1 (some "quiet") mem, c + 1⟩
    else
      .ok ⟨rule,
        append_memory_entry env name rule zd.1 sig.1
          (some (guess_theme_from_text env.randGuess rule)) mem, c + 1⟩

/-- The body of `generate_fortune`'s outer `try` (lines 571-634): attempt the
ML path when the backend is available (its own `try` turns any raise into the
fallback), validate, and otherwise compose rule-based.  The unused local
`profile` of line 573 has no effect and is omitted. -/
def generateFortuneBody (env : Env) (ud : List (String × PyVal)) (mem : Store) :
    Except Unit GenResult :=
  if env.transformersAvailable then
    match generate_ml_fortune env ud mem with
    | .ok (gen, mem1) =>
      -- a successful `generate_ml_fortune` has appended exactly once (its one
      -- `append_memory_entry` call), recorded here in the ghost counter
      if is_valid gen then .ok ⟨pyStrip gen, mem1, 1⟩ else ruleBranch env ud mem1 1
    | .error _ => ruleBranch env ud mem 0
  else ruleBranch env ud mem 0

/-- `generate_fortune` (lines 565-637): the outer `except` converts any
escaped exception into the fixed placeholder (no entry is appended on that
path — the raise happens before the append statements). -/
def generate_fortune (env : Env) (ud : List (String × PyVal)) (mem : Store) : GenResult :=
  match generateFortuneBody env ud mem with
  | .ok r => r
  | .error _ => ⟨quietFallback, mem, 0⟩

/-!
## Memory purge — `purge_memory_older_than` (lines 520-540)

`datetime.fromisoformat` is abstracted as a parse function into an integer
time line (`none` = `ValueError`); the caller-computed `datetime.now() -
timedelta(days)` is the `cutoff` parameter.
-/

/-- The list comprehension `[h for h in hist if fromisoformat(h["timestamp"])
>= cutoff]`; the first unparseable timestamp raises. -/
def purgeFilter (fromIso : String → Option Int) (cutoff : Int) :
    List Entry → Except Unit (List Entry)
  | [] => .ok []
  | e :: t =>
    match fromIso e.timestamp with
    | none => .error ()
    | some ts =>
      (purgeFilter fromIso cutoff t).map (fun r => if cutoff ≤ ts then e :: r else r)

/-- The `for name in list(mem.keys())` loop: filter each user's history,
accumulate the removed count, drop emptied users (order of survivors
preserved, as in-place dict mutation does). -/
def purgeBody (fromIso : String → Option Int) (cutoff : Int) :
    Store → Except Unit (Nat × Store)
  | [] => .ok (0, [])
  | (n, hist) :: rest => do
    let newhist ← purgeFilter fromIso cutoff hist
    let (removed, rest') ← purgeBody fromIso cutoff rest
    .ok (removed + (hist.length - newhist.length),
         if newhist.isEmpty then rest' else (n, newhist) :: rest')

/-- `purge_memory_older_than`: on any raise the `except` returns 0 and
`save_memory` was never reached, so the persisted store is unchanged. -/
def purge_memory_older_than (fromIso : String → Option Int) (cutoff : Int) (mem : Store) :
    Nat × Store :=
  match purgeBody fromIso cutoff mem with
  | .ok r => r
  | .error _ => (0, mem)

/-!
## Spec-side definitions and witness fixtures

Definitions used by the theorem statements: the spec's reference
formulations (threshold function, first-argmax, sign table), and the
concrete environments/stores the witnesses and counterexamples run on.
-/

/-- An entry survives the purge iff its timestamp parses to a time not
strictly older than the cutoff. -/
def keepEntry (fromIso : String → Option Int) (cutoff : Int) (e : Entry) : Bool :=
  match fromIso e.timestamp with
  | some ts => cutoff ≤ ts
  | none => false

/-- A toy time-line parse used only to instantiate witnesses: the timestamp
is a decimal integer. -/
def intIso : String → Option Int := pyInt?

def entryAt (ts : String) : Entry :=
  { timestamp := ts, fortune := "f", zodiac := "z", tone := "t", theme := "th" }

def witnessStore : Store :=
  [("u", [entryAt "3", entryAt "7"]), ("v", [entryAt "1"])]

def witnessStoreBad : Store :=
  [("u", [entryAt "3", entryAt "not-a-date"])]

/-- One recorded call to `append_memory_entry` (its per-call environment and
payload). -/
structure AppendCall where
  env : Env
  fortuneText : String
  zodiac : String
  tone : String
  theme : Option String

/-- Apply one recorded call for user `s`. -/
def applyCall (s : String) (m : Store) (c : AppendCall) : Store :=
  append_memory_entry c.env (.str s) c.fortuneText c.zodiac c.tone c.theme m

/-- The entry a recorded call appends. -/
def callEntry (c : AppendCall) : Entry :=
  entryOf c.env c.fortuneText c.zodiac c.tone c.theme

/-- A fixed environment for witnesses (rule-based configuration, ML backend
absent). -/
def witnessEnv : Env :=
  { hour := 12
    nowIso := "2025-01-01T12:00:00"
    dateStr := "January 01, 2025"
    randTheme := 0
    randAdj := 0
    randOmen := 0
    randLine := 0
    randGuess := 0
    transformersAvailable := false
    initModelOk := false
    mlGen := fun _ => .error ()
    dumps := fun _ => "{}"
    numRepr := fun _ => "0" }

/-- Fifteen distinct recorded append calls. -/
def witnessCalls : List AppendCall :=
  (List.range 15).map
    (fun i => ⟨witnessEnv, "fortune " ++ toString i, "Aries", "neutral", some "light"⟩)

/-- The spec's three-tier tone thresholds on the average. -/
def toneOfAvg (a : ℚ) : String :=
  if 42 / 10 ≤ a then "bright" else if 26 / 10 ≤ a then "neutral" else "dark"

/-- The spec's average of the numeric trait values. -/
def avgVals (l : List (String × ℚ)) : ℚ := (l.map (·.2)).sum / (l.length : ℚ)

/-- The spec's dominant trait: the first entry whose value is maximal
(first-seen iteration order breaks ties). -/
def firstArgmaxKey (l : List (String × ℚ)) : String :=
  match l.find? (fun kv => l.all (fun o => decide (o.2 ≤ kv.2))) with
  | some kv => kv.1
  | none => "unknown"

/-- A small two-trait profile for the C4 witness. -/
def sampleQuiz : List (String × PyVal) :=
  [("trust", .num 2), ("intuition", .num 5)]

/-- Pointwise comparison of two profiles over the same keys: identical keys,
numeric in one iff numeric in the other, and numeric values dominated by the
second profile's. -/
def pairRel (a b : String × PyVal) : Prop :=
  a.1 = b.1 ∧ ((pyFloat? a.2).isSome ↔ (pyFloat? b.2).isSome) ∧
    ∀ x y, pyFloat? a.2 = some x → pyFloat? b.2 = some y → x ≤ y

/-- The numeric rank of a tone bucket: dark < neutral < bright. -/
def toneRank : String → Nat
  | "bright" => 2
  | "neutral" => 1
  | _ => 0

/-- The spec's fixed sign → element table (the 12 legal results). -/
def signElementTable : List (String × String) :=
  [("Aquarius", "Air"), ("Pisces", "Water"), ("Aries", "Fire"), ("Taurus", "Earth"),
   ("Gemini", "Air"), ("Cancer", "Water"), ("Leo", "Fire"), ("Virgo", "Earth"),
   ("Libra", "Air"), ("Scorpio", "Water"), ("Sagittarius", "Fire"), ("Capricorn", "Earth")]

/-- A string of thirty repeated identical words. -/
def thirtyEchoes : String := String.intercalate " " (List.replicate 30 "echo")

/-- The one path on which the orchestrator appends twice: the generative
output passed the cleaner (so `generate_ml_fortune` already appended and
returned) but the orchestrator's own `_is_valid` then rejects it, entering
the rule-based tail which appends again. -/
def mlRejectedAfterAppend (env : Env) (ud : List (String × PyVal)) (mem : Store) : Bool :=
  env.transformersAvailable &&
    (match generate_ml_fortune env ud mem with
     | .ok (gen, _) => !(is_valid gen)
     | .error _ => false)

/-- An environment with the generative backend available, whose output
contains a bad marker (`"the mirror is silent"`) yet passes the cleaner. -/
def mlEnv : Env := { witnessEnv with
  transformersAvailable := true
  initModelOk := true
  mlGen := fun _ => .ok "The mirror is silent today, dear one." }

/-- A user profile without a quiz: the signature path sees no numeric
entries. -/
def mlUser : List (String × PyVal) :=
  [("name", .str "Ada"), ("birthdate", .str "1990-04-21")]

/-!
## Theorems

### Purge (claims C6 and C10)
-/

lemma length_sub_length_filter {α : Type} (p : α → Bool) (l : List α) :
    l.length - (l.filter p).length = l.countP (fun a => !p a) := by
  induction l with
  | nil => rfl
  | cons a t ih =>
    have hle := List.length_filter_le p t
    cases h : p a <;>
      (simp [List.filter_cons, List.countP_cons, h, Nat.succ_sub, ih]; try omega)

lemma purgeFilter_eq_filter (fromIso : String → Option Int) (cutoff : Int)
    (hist : List Entry) (h : ∀ e ∈ hist, (fromIso e.timestamp).isSome) :
    purgeFilter fromIso cutoff hist = .ok (hist.filter (keepEntry fromIso cutoff)) := by
  induction hist with
  | nil => rfl
  | cons e t ih =>
    obtain ⟨ts, hts⟩ := Option.isSome_iff_exists.mp (h e (by simp))
    have ih' := ih (fun x hx => h x (by simp [hx]))
    simp only [purgeFilter, hts, ih', Except.map, List.filter_cons, keepEntry]
    by_cases hc : cutoff ≤ ts <;> simp [hc]

lemma purgeBody_eq_spec (fromIso : String → Option Int) (cutoff : Int) (mem : Store)
    (h : ∀ p ∈ mem, ∀ e ∈ p.2, (fromIso e.timestamp).isSome) :
    purgeBody fromIso cutoff mem =
      .ok ((mem.map (fun p => p.2.countP (fun e => !keepEntry fromIso cutoff e))).sum,
           (mem.map (fun p => (p.1, p.2.filter (keepEntry fromIso cutoff)))).filter
             (fun p => !p.2.isEmpty)) := by
  induction mem with
  | nil => rfl
  | cons u rest ih =>
    obtain ⟨n, hist⟩ := u
    have hf := purgeFilter_eq_filter fromIso cutoff hist (h (n, hist) (by simp))
    have ih' := ih (fun p hp e he => h p (by simp [hp]) e he)
    simp only [purgeBody, hf, ih', Except.bind, List.map_cons, List.sum_cons,
      List.filter_cons, bind]
    refine congrArg _ (Prod.ext ?_ ?_)
    · simp [length_sub_length_filter, Nat.add_comm]
    · by_cases he : (hist.filter (keepEntry fromIso cutoff)).isEmpty <;> simp [he]

/-- C6: with every stored timestamp parseable, `purge_memory_older_than`
removes exactly the strictly-older entries, keeps the rest in order, drops
emptied users, and returns the removed count. -/
theorem c6_purge_removes_exactly_older (fromIso : String → Option Int) (cutoff : Int)
    (mem : Store) (h : ∀ p ∈ mem, ∀ e ∈ p.2, (fromIso e.timestamp).isSome) :
    purge_memory_older_than fromIso cutoff mem =
      ((mem.map (fun p => p.2.countP (fun e => !keepEntry fromIso cutoff e))).sum,
       (mem.map (fun p => (p.1, p.2.filter (keepEntry fromIso cutoff)))).filter
         (fun p => !p.2.isEmpty)) := by
  unfold purge_memory_older_than
  rw [purgeBody_eq_spec fromIso cutoff mem h]

/-- Witness for C6: two of three entries are strictly older than cutoff 5;
user `v` is emptied and disappears; the count is 2. -/
theorem c6_purge_removes_exactly_older_witness :
    purge_memory_older_than intIso 5 witnessStore = (2, [("u", [entryAt "7"])]) := by
  rw [c6_purge_removes_exactly_older intIso 5 witnessStore (by decide)]
  decide

lemma purgeFilter_error_of_bad (fromIso : String → Option Int) (cutoff : Int)
    (hist : List Entry) (h : ∃ e ∈ hist, fromIso e.timestamp = none) :
    purgeFilter fromIso cutoff hist = .error () := by
  induction hist with
  | nil => simp at h
  | cons e t ih =>
    obtain ⟨x, hx, hnone⟩ := h
    rcases List.mem_cons.mp hx with rfl | hxt
    · simp [purgeFilter, hnone]
    · cases he : fromIso e.timestamp with
      | none => simp [purgeFilter, he]
      | some ts => simp [purgeFilter, he, ih ⟨x, hxt, hnone⟩, Except.map]

lemma purgeBody_error_of_bad (fromIso : String → Option Int) (cutoff : Int)
    (mem : Store) (h : ∃ p ∈ mem, ∃ e ∈ p.2, fromIso e.timestamp = none) :
    purgeBody fromIso cutoff mem = .error () := by
  induction mem with
  | nil => simp at h
  | cons u rest ih =>
    obtain ⟨p, hp, x, hx, hnone⟩ := h
    rcases List.mem_cons.mp hp with rfl | hprest
    · simp [purgeBody, purgeFilter_error_of_bad fromIso cutoff p.2 ⟨x, hx, hnone⟩,
        Except.bind, bind]
    · cases hf : purgeFilter fromIso cutoff u.2 with
      | error e => simp [purgeBody, hf, Except.bind, bind]
      | ok nh => simp [purgeBody, hf, ih ⟨p, hprest, x, hx, hnone⟩, Except.bind, bind]

/-- C10: if any stored timestamp fails to parse, the purge raises before
`save_memory`, the `except` returns 0, and the persisted store is unchanged. -/
theorem c10_purge_unparseable_leaves_store (fromIso : String → Option Int) (cutoff : Int)
    (mem : Store) (h : ∃ p ∈ mem, ∃ e ∈ p.2, fromIso e.timestamp = none) :
    purge_memory_older_than fromIso cutoff mem = (0, mem) := by
  unfold purge_memory_older_than
  rw [purgeBody_error_of_bad fromIso cutoff mem h]

/-- Witness for C10: one unparseable timestamp freezes the whole store and
returns 0 (even though another entry is older than the cutoff). -/
theorem c10_purge_unparseable_leaves_store_witness :
    purge_memory_older_than intIso 5 witnessStoreBad = (0, witnessStoreBad) :=
  c10_purge_unparseable_leaves_store intIso 5 witnessStoreBad
    ⟨("u", [entryAt "3", entryAt "not-a-date"]), by decide,
     entryAt "not-a-date", by decide, by decide⟩

/-!
### The retention cap (claim C7)
-/

lemma find?_set_of_isSome (k : String) (v : List Entry) (mem : Store)
    (h : (mem.find? (fun kv => kv.1 = k)).isSome) :
    (mem.map (fun kv => if kv.1 = k then (k, v) else kv)).find? (fun kv => kv.1 = k) =
      some (k, v) := by
  induction mem with
  | nil => simp at h
  | cons a t ih =>
    by_cases ha : a.1 = k
    · simp [ha]
    · rw [List.find?_cons_of_neg _ (by simp [ha])] at h
      simp [ha, List.find?_cons_of_neg, ih h]

lemma storeGet_storeSet_self (mem : Store) (k : String) (v : List Entry) :
    storeGet (storeSet mem k v) k = v := by
  unfold storeGet storeSet
  by_cases h : (mem.find? (fun kv => kv.1 = k)).isSome
  · simp [h, find?_set_of_isSome k v mem h]
  · have hn : mem.find? (fun kv => kv.1 = k) = none := Option.not_isSome_iff_eq_none.mp h
    simp [h, List.find?_append, hn]

lemma pyTakeLast_length_le {α : Type} (n : Nat) (l : List α) :
    (pyTakeLast n l).length ≤ n := by
  simp [pyTakeLast, List.length_take]

lemma pyTakeLast_absorb {α : Type} (n : Nat) (xs ys : List α) :
    pyTakeLast n (pyTakeLast n xs ++ ys) = pyTakeLast n (xs ++ ys) := by
  unfold pyTakeLast
  rw [List.reverse_append, List.reverse_reverse, List.reverse_append,
    List.take_append_eq_append_take, List.take_append_eq_append_take, List.take_take,
    Nat.min_eq_left (Nat.sub_le n ys.reverse.length)]

lemma pyTakeLast_eq_drop {α : Type} (n : Nat) (l : List α) :
    pyTakeLast n l = l.drop (l.length - n) := by
  unfold pyTakeLast
  rw [List.take_reverse, List.reverse_reverse]

lemma applyCall_get (s : String) (m : Store) (c : AppendCall) :
    storeGet (applyCall s m c) s =
      pyTakeLast KEEP_HISTORY (storeGet m s ++ [callEntry c]) := by
  unfold applyCall append_memory_entry callEntry
  exact storeGet_storeSet_self m s _

lemma foldl_applyCall_get (s : String) :
    ∀ (calls : List AppendCall) (m : Store), calls ≠ [] →
      storeGet (calls.foldl (applyCall s) m) s =
        pyTakeLast KEEP_HISTORY (storeGet m s ++ calls.map callEntry) := by
  intro calls
  induction calls with
  | nil => intro m h; exact absurd rfl h
  | cons c cs ih =>
    intro m _
    cases cs with
    | nil => simpa using applyCall_get s m c
    | cons c' cs' =>
      calc storeGet (((c :: c' :: cs').foldl (applyCall s) m)) s
          = storeGet ((c' :: cs').foldl (applyCall s) (applyCall s m c)) s := rfl
        _ = pyTakeLast KEEP_HISTORY
              (storeGet (applyCall s m c) s ++ (c' :: cs').map callEntry) :=
            ih (applyCall s m c) (by simp)
        _ = pyTakeLast KEEP_HISTORY
              (pyTakeLast KEEP_HISTORY (storeGet m s ++ [callEntry c]) ++
                (c' :: cs').map callEntry) := by rw [applyCall_get]
        _ = pyTakeLast KEEP_HISTORY
              ((storeGet m s ++ [callEntry c]) ++ (c' :: cs').map callEntry) :=
            pyTakeLast_absorb _ _ _
        _ = pyTakeLast KEEP_HISTORY (storeGet m s ++ (c :: c' :: cs').map callEntry) := by
            simp

/-- C7: one append never lets the user's stored history exceed the retention
cap of 12; and appending 15 entries to an initially empty history leaves
exactly the 12 most recent entries, oldest-first (the first 3 are dropped,
order preserved). -/
theorem c7_retention_cap :
    (∀ (env : Env) (s fortuneText zodiac tone : String) (theme : Option String) (mem : Store),
      (storeGet (append_memory_entry env (.str s) fortuneText zodiac tone theme mem) s).length ≤
        KEEP_HISTORY) ∧
    (∀ (s : String) (calls : List AppendCall) (mem : Store),
      calls.length = 15 → storeGet mem s = [] →
      storeGet (calls.foldl (applyCall s) mem) s = (calls.map callEntry).drop 3) := by
  constructor
  · intro env s fortuneText zodiac tone theme mem
    unfold append_memory_entry
    rw [storeGet_storeSet_self]
    exact pyTakeLast_length_le _ _
  · intro s calls mem hlen hempty
    have hne : calls ≠ [] := by
      intro h; rw [h] at hlen; simp at hlen
    rw [foldl_applyCall_get s calls mem hne, hempty, List.nil_append,
      pyTakeLast_eq_drop]
    have : (calls.map callEntry).length = 15 := by simp [hlen]
    rw [this]
    rfl

/-- Witness for C7: the cap bound at one concrete append, and the 15-append
scenario collapsing to the last 12 entries. -/
theorem c7_retention_cap_witness :
    (storeGet (append_memory_entry witnessEnv (.str "u") "f" "z" "t" (some "th") []) "u").length ≤
      KEEP_HISTORY ∧
    storeGet (witnessCalls.foldl (applyCall "u") []) "u" =
      (witnessCalls.map callEntry).drop 3 :=
  ⟨c7_retention_cap.1 witnessEnv "u" "f" "z" "t" (some "th") [],
   c7_retention_cap.2 "u" witnessCalls [] (by decide) rfl⟩

/-!
### Personality signature (claims C4 and C8)
-/

lemma find?_congr_on {α : Type} (p q : α → Bool) (l : List α)
    (h : ∀ a, p a = q a) : l.find? p = l.find? q := by
  induction l with
  | nil => rfl
  | cons a t ih => simp only [List.find?_cons, h a, ih]

lemma all_le_iff (l : List (String × ℚ)) (kv : String × ℚ) :
    (l.all (fun o => decide (o.2 ≤ kv.2)) = true) ↔ ∀ o ∈ l, o.2 ≤ kv.2 := by
  simp [List.all_eq_true]

lemma find?_cons_of_false {α : Type} (p : α → Bool) (a : α) (l : List α)
    (h : p a = false) : List.find? p (a :: l) = List.find? p l := by
  simp [List.find?_cons, h]

lemma find?_cons_of_true {α : Type} (p : α → Bool) (a : α) (l : List α)
    (h : p a = true) : List.find? p (a :: l) = some a := by
  simp [List.find?_cons, h]

lemma bfalse_of_not_true {b : Bool} (h : ¬ b = true) : b = false := by
  cases b
  · rfl
  · exact absurd rfl h

/-- Python's `max(..., key=...)` (a left fold keeping the first maximum) picks
exactly the first entry whose value dominates the whole list. -/
lemma find?_argmax_eq_pyMaxBy :
    ∀ (tl : List (String × ℚ)) (hd : String × ℚ),
      (hd :: tl).find? (fun kv => (hd :: tl).all (fun o => decide (o.2 ≤ kv.2))) =
        some (pyMaxBy hd tl) := by
  intro tl
  induction tl with
  | nil =>
    intro hd
    rw [List.find?_cons_of_pos _ (by simp)]
    rfl
  | cons x t ih =>
    intro hd
    have hfold : pyMaxBy hd (x :: t) = pyMaxBy (if hd.2 < x.2 then x else hd) t := rfl
    rw [hfold, ← ih (if hd.2 < x.2 then x else hd)]
    by_cases hxy : hd.2 < x.2
    · rw [if_pos hxy]
      -- `hd` is beaten by `x`, so it is not an argmax; the rest of the scan
      -- sees an equivalent predicate whether or not `hd` stays in the `all`.
      have hhd : ¬((hd :: x :: t).all (fun o => decide (o.2 ≤ hd.2)) = true) := by
        intro hc
        exact absurd ((all_le_iff _ _).mp hc x (by simp)) (not_le.mpr hxy)
      refine (find?_cons_of_false _ hd (x :: t) (bfalse_of_not_true hhd)).trans ?_
      refine find?_congr_on _ _ _ (fun a => ?_)
      simp only [List.all_cons]
      by_cases h1 : x.2 ≤ a.2
      · have h2 : hd.2 ≤ a.2 := le_trans hxy.le h1
        simp [h1, h2]
      · simp [h1]
    · have hxh : x.2 ≤ hd.2 := not_lt.mp hxy
      rw [if_neg hxy]
      by_cases hA : t.all (fun o => decide (o.2 ≤ hd.2)) = true
      · have p1 : (hd :: x :: t).all (fun o => decide (o.2 ≤ hd.2)) = true := by
          refine (all_le_iff _ _).mpr (fun o ho => ?_)
          rcases List.mem_cons.mp ho with rfl | ho'
          · exact le_refl _
          · rcases List.mem_cons.mp ho' with rfl | ho''
            · exact hxh
            · exact (all_le_iff t hd).mp hA o ho''
        have p2 : (hd :: t).all (fun o => decide (o.2 ≤ hd.2)) = true := by
          refine (all_le_iff _ _).mpr (fun o ho => ?_)
          rcases List.mem_cons.mp ho with rfl | ho'
          · exact le_refl _
          · exact (all_le_iff t hd).mp hA o ho'
        exact (find?_cons_of_true _ hd (x :: t) p1).trans
          (find?_cons_of_true _ hd t p2).symm
      · obtain ⟨w, hw, hwgt⟩ : ∃ o ∈ t, hd.2 < o.2 := by
          by_contra hc
          push_neg at hc
          exact hA ((all_le_iff t hd).mpr (fun o ho => hc o ho))
        have nhd1 : ¬((hd :: x :: t).all (fun o => decide (o.2 ≤ hd.2)) = true) := by
          intro hc
          exact absurd ((all_le_iff _ _).mp hc w (by simp [hw])) (not_le.mpr hwgt)
        have nhd2 : ¬((hd :: t).all (fun o => decide (o.2 ≤ hd.2)) = true) := by
          intro hc
          exact absurd ((all_le_iff _ _).mp hc w (by simp [hw])) (not_le.mpr hwgt)
        have nx : ¬((hd :: x :: t).all (fun o => decide (o.2 ≤ x.2)) = true) := by
          intro hc
          have hwx : w.2 ≤ x.2 := (all_le_iff _ _).mp hc w (by simp [hw])
          exact absurd (le_trans hwx hxh) (not_le.mpr hwgt)
        refine ((find?_cons_of_false _ hd (x :: t) (bfalse_of_not_true nhd1)).trans
          ((find?_cons_of_false _ x t (bfalse_of_not_true nx)).trans ?_)).trans
          (find?_cons_of_false _ hd t (bfalse_of_not_true nhd2)).symm
        refine find?_congr_on _ _ _ (fun a => ?_)
        simp only [List.all_cons]
        by_cases h1 : hd.2 ≤ a.2
        · have h2 : x.2 ≤ a.2 := le_trans hxh h1
          simp [h1, h2]
        · simp [h1]

/-- The non-trivial branch of `compute_personality_signature`, characterised
against the spec-level average and first-argmax. -/
lemma compute_signature_spec (items : List (String × PyVal)) (n : String × ℚ)
    (ns : List (String × ℚ)) (h : numericEntries items = n :: ns) :
    compute_personality_signature (.dict items) =
      (toneOfAvg (avgVals (n :: ns)), firstArgmaxKey (n :: ns)) := by
  have hne : items ≠ [] := by
    intro he; rw [he] at h; simp [numericEntries] at h
  have hie : items.isEmpty = false := by
    cases items with
    | nil => exact absurd rfl hne
    | cons a t => rfl
  simp only [compute_personality_signature, hie, Bool.false_eq_true, if_false]
  rw [h]
  unfold toneOfAvg avgVals firstArgmaxKey
  rw [find?_argmax_eq_pyMaxBy ns n]
  simp [List.length_map, ge_iff_le]

/-- C4: `compute_personality_signature` returns `("neutral", "unknown")` on a
profile with no numeric entries (in particular an empty one); otherwise the
tone is the three-tier function of the average of the numeric values and the
dominant trait is the first-seen numeric key attaining the maximum value. -/
theorem c4_personality_signature (items : List (String × PyVal)) :
    (numericEntries items = [] →
      compute_personality_signature (.dict items) = ("neutral", "unknown")) ∧
    (∀ n ns, numericEntries items = n :: ns →
      compute_personality_signature (.dict items) =
        (toneOfAvg (avgVals (n :: ns)), firstArgmaxKey (n :: ns))) := by
  constructor
  · intro h
    simp only [compute_personality_signature]
    rw [h]
    split <;> rfl
  · intro n ns h
    exact compute_signature_spec items n ns h

/-- Witness for C4: average 7/2 = 3.5 gives `neutral`, and `intuition` (value
5) dominates. -/
theorem c4_personality_signature_witness :
    compute_personality_signature (.dict sampleQuiz) = ("neutral", "intuition") := by
  have h := (c4_personality_signature sampleQuiz).2 ("trust", 2) [("intuition", 5)] rfl
  rw [h]
  have ha : avgVals [("trust", 2), ("intuition", 5)] = 7 / 2 := by
    simp [avgVals]
    norm_num
  have ht : toneOfAvg (7 / 2) = "neutral" := by
    rw [toneOfAvg, if_neg (by norm_num), if_pos (by norm_num)]
  have d1 : decide (((("intuition" : String), (5 : ℚ)).2 : ℚ) ≤ (("trust", (2 : ℚ)).2 : ℚ)) = false :=
    decide_eq_false (by norm_num)
  have d2 : decide (((("trust" : String), (2 : ℚ)).2 : ℚ) ≤ (("intuition", (5 : ℚ)).2 : ℚ)) = true :=
    decide_eq_true (by norm_num)
  have d3 : decide (((("intuition" : String), (5 : ℚ)).2 : ℚ) ≤ (("intuition", (5 : ℚ)).2 : ℚ)) = true :=
    decide_eq_true le_rfl
  have hd : firstArgmaxKey [("trust", 2), ("intuition", 5)] = "intuition" := by
    simp only [firstArgmaxKey, List.find?_cons, List.all_cons, List.all_nil, d1, d2, d3,
      Bool.and_false, Bool.and_true, Bool.false_and]
  rw [ha, ht, hd]

lemma numericEntries_forall₂ (p q : List (String × PyVal))
    (h : List.Forall₂ pairRel p q) :
    List.Forall₂ (fun (a b : String × ℚ) => a.2 ≤ b.2)
      (numericEntries p) (numericEntries q) := by
  induction h with
  | nil => exact .nil
  | @cons a b l1 l2 hr hrest ih =>
    obtain ⟨-, hiff, hle⟩ := hr
    cases hfa : pyFloat? a.2 with
    | none =>
      have hfb : pyFloat? b.2 = none := by
        rw [← Option.not_isSome_iff_eq_none] at hfa ⊢
        exact fun hc => hfa (hiff.mpr hc)
      have e1 : numericEntries (a :: l1) = numericEntries l1 := by
        simp [numericEntries, List.filterMap_cons, hfa]
      have e2 : numericEntries (b :: l2) = numericEntries l2 := by
        simp [numericEntries, List.filterMap_cons, hfb]
      rw [e1, e2]
      exact ih
    | some x =>
      have hsb : (pyFloat? b.2).isSome := hiff.mp (by simp [hfa])
      obtain ⟨y, hfb⟩ := Option.isSome_iff_exists.mp hsb
      have e1 : numericEntries (a :: l1) = (a.1, x) :: numericEntries l1 := by
        simp [numericEntries, List.filterMap_cons, hfa]
      have e2 : numericEntries (b :: l2) = (b.1, y) :: numericEntries l2 := by
        simp [numericEntries, List.filterMap_cons, hfb]
      rw [e1, e2]
      exact List.Forall₂.cons (hle x y hfa hfb) ih

lemma forall₂_map_snd {l1 l2 : List (String × ℚ)}
    (h : List.Forall₂ (fun a b => a.2 ≤ b.2) l1 l2) :
    List.Forall₂ (· ≤ ·) (l1.map (·.2)) (l2.map (·.2)) := by
  induction h with
  | nil => exact .nil
  | cons hr _ ih => exact .cons hr ih

lemma toneOfAvg_mono {a b : ℚ} (h : a ≤ b) :
    toneRank (toneOfAvg a) ≤ toneRank (toneOfAvg b) := by
  unfold toneOfAvg
  split_ifs with h1 h2 h3 h4 h5 <;> simp [toneRank] <;> linarith

/-- C8: over profiles with the same keys and at least one numeric entry,
raising every numeric value can never lower the tone bucket
(dark < neutral < bright), and the threshold boundaries are exact:
average 4.2 → bright, 2.6 → neutral, 2.5999 → dark. -/
theorem c8_tone_monotone :
    (∀ p q : List (String × PyVal), List.Forall₂ pairRel p q →
      numericEntries p ≠ [] →
      toneRank (compute_personality_signature (.dict p)).1 ≤
        toneRank (compute_personality_signature (.dict q)).1) ∧
    (∀ (items : List (String × PyVal)) n ns, numericEntries items = n :: ns →
      (avgVals (n :: ns) = 42 / 10 →
        (compute_personality_signature (.dict items)).1 = "bright") ∧
      (avgVals (n :: ns) = 26 / 10 →
        (compute_personality_signature (.dict items)).1 = "neutral") ∧
      (avgVals (n :: ns) = 25999 / 10000 →
        (compute_personality_signature (.dict items)).1 = "dark")) := by
  constructor
  · intro p q hrel hne
    obtain ⟨np, nsp, hp⟩ : ∃ n ns, numericEntries p = n :: ns := by
      cases hnp : numericEntries p with
      | nil => exact absurd hnp hne
      | cons n ns => exact ⟨n, ns, rfl⟩
    have hf := numericEntries_forall₂ p q hrel
    rw [hp] at hf
    obtain ⟨nq, nsq, hq⟩ : ∃ n ns, numericEntries q = n :: ns := by
      cases hnq : numericEntries q with
      | nil => rw [hnq] at hf; cases hf
      | cons n ns => exact ⟨n, ns, rfl⟩
    rw [hq] at hf
    rw [compute_signature_spec p np nsp hp, compute_signature_spec q nq nsq hq]
    refine toneOfAvg_mono ?_
    unfold avgVals
    have hlen : (np :: nsp).length = (nq :: nsq).length := hf.length_eq
    have hmap : List.Forall₂ (· ≤ ·) ((np :: nsp).map (·.2)) ((nq :: nsq).map (·.2)) :=
      forall₂_map_snd hf
    have hsum : ((np :: nsp).map (·.2)).sum ≤ ((nq :: nsq).map (·.2)).sum :=
      List.Forall₂.sum_le_sum hmap
    rw [hlen]
    have hpos : (0 : ℚ) ≤ ((nq :: nsq).length : ℚ) := by positivity
    exact div_le_div_of_nonneg_right hsum hpos
  · intro items n ns h
    rw [compute_signature_spec items n ns h]
    refine ⟨?_, ?_, ?_⟩ <;> intro ha <;> simp [toneOfAvg, ha] <;> norm_num

/-- Witness for C8: raising the single trait value from 2 to 5 cannot lower
the tone bucket, and an exact-boundary profile (average 21/5 = 4.2) computes
`bright`. -/
theorem c8_tone_monotone_witness :
    toneRank (compute_personality_signature (.dict [("a", .num 2)])).1 ≤
      toneRank (compute_personality_signature (.dict [("a", .num 5)])).1 ∧
    (compute_personality_signature (.dict [("a", .num (21 / 5))])).1 = "bright" := by
  constructor
  · refine c8_tone_monotone.1 _ _ ?_ ?_
    · refine List.Forall₂.cons ⟨rfl, by simp [pyFloat?], ?_⟩ .nil
      intro x y hx hy
      simp only [pyFloat?] at hx hy
      injection hx with hx
      injection hy with hy
      rw [← hx, ← hy]
      norm_num
    · simp [numericEntries, pyFloat?]
  · refine ((c8_tone_monotone.2 [("a", .num (21 / 5))] ("a", 21 / 5) [] rfl).1) ?_
    simp [avgVals]
    norm_num

/-!
### Theme classifier (claim C9)
-/

lemma all_le_iff_nat (l : List (String × Nat)) (kv : String × Nat) :
    (l.all (fun o => decide (o.2 ≤ kv.2)) = true) ↔ ∀ o ∈ l, o.2 ≤ kv.2 := by
  simp [List.all_eq_true]

lemma exists_argmax_nat (l : List (String × Nat)) (h : l ≠ []) :
    ∃ p ∈ l, ∀ o ∈ l, o.2 ≤ p.2 := by
  induction l with
  | nil => exact absurd rfl h
  | cons a t ih =>
    cases t with
    | nil => exact ⟨a, by simp, by simp⟩
    | cons b u =>
      obtain ⟨m, hm, hall⟩ := ih (by simp)
      by_cases hma : m.2 ≤ a.2
      · refine ⟨a, by simp, fun o ho => ?_⟩
        rcases List.mem_cons.mp ho with rfl | ho'
        · exact le_refl _
        · exact le_trans (hall o ho') hma
      · refine ⟨m, List.mem_cons_of_mem _ hm, fun o ho => ?_⟩
        rcases List.mem_cons.mp ho with rfl | ho'
        · exact le_of_not_le hma
        · exact hall o ho'

lemma head?_insDesc (a : String × Nat) (s : List (String × Nat)) :
    (insDesc a s).head? =
      some (match s with | [] => a | b :: _ => if b.2 ≤ a.2 then a else b) := by
  cases s with
  | nil => rfl
  | cons b u =>
    by_cases h : b.2 ≤ a.2 <;> simp [insDesc, h]

/-- The head of the stable count-descending sort is the first entry attaining
the maximal count. -/
lemma sortDesc_head?_eq_find? :
    ∀ (tl : List (String × Nat)) (hd : String × Nat),
      (sortDesc (hd :: tl)).head? =
        (hd :: tl).find? (fun kv => (hd :: tl).all (fun o => decide (o.2 ≤ kv.2))) := by
  intro tl
  induction tl with
  | nil =>
    intro hd
    rw [find?_cons_of_true _ hd [] (by simp)]
    rfl
  | cons x t ih =>
    intro hd
    have hs : sortDesc (hd :: x :: t) = insDesc hd (sortDesc (x :: t)) := rfl
    obtain ⟨p, hp, hpall⟩ := exists_argmax_nat (x :: t) (by simp)
    have hfs : ((x :: t).find? (fun kv => (x :: t).all (fun o => decide (o.2 ≤ kv.2)))).isSome := by
      refine List.find?_isSome.mpr ⟨p, hp, ?_⟩
      exact (all_le_iff_nat _ _).mpr hpall
    obtain ⟨m, hm⟩ := Option.isSome_iff_exists.mp hfs
    have hps := List.find?_some hm
    have hmall : ∀ o ∈ x :: t, o.2 ≤ m.2 := (all_le_iff_nat _ _).mp hps
    have hmmem : m ∈ x :: t := List.mem_of_find?_eq_some hm
    have hhead2 : (sortDesc (x :: t)).head? = some m := (ih x).trans hm
    obtain ⟨u, hbu⟩ : ∃ u, sortDesc (x :: t) = m :: u := by
      cases hsx : sortDesc (x :: t) with
      | nil => rw [hsx] at hhead2; simp at hhead2
      | cons b u =>
        rw [hsx] at hhead2
        simp only [List.head?] at hhead2
        exact ⟨u, by rw [(Option.some.injEq _ _).mp hhead2]⟩
    rw [hs, hbu, head?_insDesc]
    by_cases hcase : m.2 ≤ hd.2
    · rw [find?_cons_of_true _ hd (x :: t) ?_]
      · simp [hcase]
      · refine (all_le_iff_nat _ _).mpr (fun o ho => ?_)
        rcases List.mem_cons.mp ho with rfl | ho'
        · exact le_refl _
        · exact le_trans (hmall o ho') hcase
    · have hhd : (hd :: x :: t).all (fun o => decide (o.2 ≤ hd.2)) = false := by
        refine bfalse_of_not_true (fun hc => ?_)
        exact absurd ((all_le_iff_nat _ _).mp hc m (List.mem_cons_of_mem _ hmmem)) hcase
      rw [find?_cons_of_false _ hd (x :: t) hhd]
      have hcongr :
          (x :: t).find? (fun kv => (hd :: x :: t).all (fun o => decide (o.2 ≤ kv.2))) =
            (x :: t).find? (fun kv => (x :: t).all (fun o => decide (o.2 ≤ kv.2))) := by
        refine find?_congr_on _ _ _ (fun a => ?_)
        simp only [List.all_cons]
        by_cases h1 : (x :: t).all (fun o => decide (o.2 ≤ a.2)) = true
        · have hma : m.2 ≤ a.2 := (all_le_iff_nat _ _).mp h1 m hmmem
          have hda : hd.2 ≤ a.2 := le_trans (le_of_not_le hcase) hma
          simp only [List.all_cons] at h1
          simp [hda, h1]
        · have h1' := bfalse_of_not_true h1
          simp only [List.all_cons] at h1'
          simp [h1']
      rw [hcongr, hm]
      simp [hcase]

/-- C9: whenever some vocabulary theme occurs in the text,
`guess_theme_from_text` deterministically returns the first theme (in the
fixed vocabulary order) attaining the maximal substring count — ties included
— and the random choice is taken only when every theme's count is zero. -/
theorem c9_theme_tie_break :
    (∀ (text : String) (randIdx : Nat) (m : String × Nat),
      (themeCounts text).find?
          (fun kv => (themeCounts text).all (fun o => decide (o.2 ≤ kv.2))) = some m →
      0 < m.2 →
      guess_theme_from_text randIdx text = m.1) ∧
    (∀ (text : String) (randIdx : Nat),
      (themeCounts text).all (fun kv => decide (kv.2 = 0)) = true →
      guess_theme_from_text randIdx text = pyChoice randIdx vocabThemes) := by
  have hcounts : ∀ text, ∃ c0 crest, themeCounts text = c0 :: crest := by
    intro text
    cases hc : themeCounts text with
    | nil =>
      exfalso
      have : (themeCounts text).length = 20 := by
        simp [themeCounts, vocabThemes]
      rw [hc] at this
      simp at this
    | cons c0 crest => exact ⟨c0, crest, rfl⟩
  have hhead : ∀ text m,
      (themeCounts text).find?
          (fun kv => (themeCounts text).all (fun o => decide (o.2 ≤ kv.2))) = some m →
      ∃ rest, sortDesc (themeCounts text) = m :: rest := by
    intro text m hm
    obtain ⟨c0, crest, hc⟩ := hcounts text
    have := sortDesc_head?_eq_find? crest c0
    rw [← hc] at this
    rw [hm] at this
    cases hs : sortDesc (themeCounts text) with
    | nil => rw [hs] at this; simp at this
    | cons b u =>
      rw [hs] at this
      simp only [List.head?] at this
      exact ⟨u, by rw [(Option.some.injEq _ _).mp this]⟩
  constructor
  · intro text randIdx m hm hpos
    obtain ⟨rest, hs⟩ := hhead text m hm
    unfold guess_theme_from_text
    rw [hs]
    simp [hpos]
  · intro text randIdx hzero
    obtain ⟨c0, crest, hc⟩ := hcounts text
    have hfs : ((themeCounts text).find?
        (fun kv => (themeCounts text).all (fun o => decide (o.2 ≤ kv.2)))).isSome := by
      rw [hc]
      obtain ⟨p, hp, hpall⟩ := exists_argmax_nat (c0 :: crest) (by simp)
      exact List.find?_isSome.mpr ⟨p, hp, (all_le_iff_nat _ _).mpr hpall⟩
    obtain ⟨m, hm⟩ := Option.isSome_iff_exists.mp hfs
    have hmmem : m ∈ themeCounts text := List.mem_of_find?_eq_some hm
    have hm0 : m.2 = 0 := by
      have := List.all_eq_true.mp hzero m hmmem
      simpa using this
    obtain ⟨rest, hs⟩ := hhead text m hm
    unfold guess_theme_from_text
    rw [hs]
    simp [hm0]

/-- Witness for C9: in `"light shadow"` the themes `light` and `shadow` tie at
count 1, and the tie goes to `light`, listed earlier in the vocabulary. -/
theorem c9_theme_tie_break_witness :
    guess_theme_from_text 0 "light shadow" = "light" :=
  c9_theme_tie_break.1 "light shadow" 0 ("light", 1) (by decide) (by decide)

/-!
### Zodiac resolver (claim C3)
-/

/-- Every in-range month/day pair matches some sign row, with its table
element: the twelve two-month windows tile the whole month/day grid. -/
lemma zodiacFromMonthDay_mem_table :
    ∀ mn : Fin 13, ∀ dn : Fin 32, 1 ≤ (mn : Nat) → 1 ≤ (dn : Nat) →
      zodiacFromMonthDay ((mn : Nat) : Int) ((dn : Nat) : Int) ∈ signElementTable := by
  decide

/-- C3 (amended): for any input whose second and third `-`-separated fields
parse as an in-range month and day, `analyze_zodiac` returns one of the
twelve (sign, element) pairs of the fixed table; and any input with fewer
than three `-`-separated fields, or whose month or day field fails integer
parsing, yields exactly `("Unknown", "Void")`.  (Extra trailing fields are
tolerated, not rejected — see the counterexample.) -/
theorem c3_zodiac_amended :
    (∀ (s p0 p1 p2 : String) (rest : List String) (m d : Int),
      splitChar '-' s = p0 :: p1 :: p2 :: rest →
      pyInt? p1 = some m → pyInt? p2 = some d →
      1 ≤ m → m ≤ 12 → 1 ≤ d → d ≤ 31 →
      analyze_zodiac s ∈ signElementTable) ∧
    (∀ s : String,
      ((splitChar '-' s).length < 3 ∨
        pyInt? ((splitChar '-' s).getD 1 "") = none ∨
        pyInt? ((splitChar '-' s).getD 2 "") = none) →
      analyze_zodiac s = ("Unknown", "Void")) := by
  constructor
  · intro s p0 p1 p2 rest m d hsp hm hd hm1 hm2 hd1 hd2
    have hred : analyze_zodiac s = zodiacFromMonthDay m d := by
      simp only [analyze_zodiac, hsp, hm, hd]
    rw [hred]
    have hmn : m = ((m.toNat : Nat) : Int) := (Int.toNat_of_nonneg (by omega)).symm
    have hdn : d = ((d.toNat : Nat) : Int) := (Int.toNat_of_nonneg (by omega)).symm
    rw [hmn, hdn]
    exact zodiacFromMonthDay_mem_table ⟨m.toNat, by omega⟩ ⟨d.toNat, by omega⟩
      (by simpa using (by omega : 1 ≤ m.toNat)) (by simpa using (by omega : 1 ≤ d.toNat))
  · intro s hbad
    cases h0 : splitChar '-' s with
    | nil => simp [analyze_zodiac, h0]
    | cons p0 l0 =>
      cases l0 with
      | nil => simp [analyze_zodiac, h0]
      | cons p1 l1 =>
        cases l1 with
        | nil => simp [analyze_zodiac, h0]
        | cons p2 rest =>
          rw [h0] at hbad
          rcases hbad with hlen | hp1 | hp2
          · exfalso
            simp [List.length_cons] at hlen
            omega
          · have hg : (p0 :: p1 :: p2 :: rest).getD 1 "" = p1 := rfl
            rw [hg] at hp1
            simp [analyze_zodiac, h0, hp1]
          · have hg : (p0 :: p1 :: p2 :: rest).getD 2 "" = p2 := rfl
            rw [hg] at hp2
            cases hq1 : pyInt? p1 <;> simp [analyze_zodiac, h0, hq1, hp2]

/-- Witness for C3 (amended): a well-formed date lands in the table. -/
theorem c3_zodiac_amended_witness :
    analyze_zodiac "1990-04-21" ∈ signElementTable :=
  c3_zodiac_amended.1 "1990-04-21" "1990" "04" "21" [] 4 21 (by decide) (by decide)
    (by decide) (by decide) (by decide) (by decide) (by decide)

/-- Counterexample to C3 as stated: `"1990-04-21-07"` has four fields — a
wrong field count, hence malformed per the claim — yet `analyze_zodiac`
parses fields 1 and 2 and returns `("Taurus", "Earth")`, not
`("Unknown", "Void")`. -/
theorem c3_zodiac_counterexample :
    (splitChar '-' "1990-04-21-07").length = 4 ∧
    analyze_zodiac "1990-04-21-07" = ("Taurus", "Earth") ∧
    analyze_zodiac "1990-04-21-07" ≠ ("Unknown", "Void") := by
  refine ⟨by decide, by decide, ?_⟩
  intro h
  simpa using h.symm.trans (by decide : analyze_zodiac "1990-04-21-07" = ("Taurus", "Earth"))

/-!
### Generated-text cleaner (claim C5)
-/

lemma countP_dropWhile_notWs (l : List Char) :
    (l.dropWhile isWs).countP (fun c => !isWs c) = l.countP (fun c => !isWs c) := by
  induction l with
  | nil => rfl
  | cons c t ih =>
    by_cases h : isWs c = true
    · rw [List.dropWhile_cons, if_pos h, ih, List.countP_cons]
      simp [h]
    · rw [List.dropWhile_cons, if_neg h]

lemma countP_reverse_eq (p : Char → Bool) (l : List Char) :
    l.reverse.countP p = l.countP p :=
  (List.reverse_perm l).countP_eq p

lemma pyStrip_countP (s : String) :
    (pyStrip s).data.countP (fun c => !isWs c) = s.data.countP (fun c => !isWs c) := by
  unfold pyStrip
  rw [countP_reverse_eq, countP_dropWhile_notWs, countP_reverse_eq, countP_dropWhile_notWs]

lemma str_ne_empty_of_countP (s : String)
    (h : 0 < s.data.countP (fun c => !isWs c)) : s ≠ "" := by
  intro he
  rw [he] at h
  simp at h

lemma pyStrip_ne_empty_of_countP (s : String)
    (h : 0 < s.data.countP (fun c => !isWs c)) : pyStrip s ≠ "" :=
  str_ne_empty_of_countP _ (by rw [pyStrip_countP]; exact h)

lemma firstSep_not_ws {t : String} {sep : Char} (h : firstSep t = some sep) :
    isWs sep = false := by
  unfold firstSep at h
  split_ifs at h <;> simp_all <;> subst h <;> decide

/-- C5 (amended): for every input that is non-empty after stripping, the
cleaner returns the empty string exactly when the stripped text has more than
5 whitespace-delimited words and some single word exceeds 60 % of the word
count; a 30-fold repeated word is rejected; a 3-sentence natural string keeps
exactly its first two sentences with terminal punctuation.  (On
whitespace-only input the cleaner also returns `""` without consulting the
word rule — see the counterexample — hence the stripped-non-empty guard.) -/
theorem c5_cleaner_amended :
    (∀ s : String, pyStrip s ≠ "" →
      (clean_generated_text s = .ok "" ↔ repetitiveJunk (pyWords (pyStrip s)) = true)) ∧
    clean_generated_text thirtyEchoes = .ok "" ∧
    clean_generated_text "The dawn rises. The tide answers. The night waits." =
      .ok "The dawn rises. The tide answers." := by
  refine ⟨?_, by rfl, by rfl⟩
  intro s hs
  have hie : (pyStrip s).data.isEmpty = false := by
    cases hd : (pyStrip s).data with
    | nil => exact absurd (String.ext hd) hs
    | cons c l => rfl
  by_cases hjunk : repetitiveJunk (pyWords (pyStrip s)) = true
  · constructor
    · intro _; exact hjunk
    · intro _
      simp only [clean_generated_text, hie, Bool.false_eq_true, if_false, hjunk, if_true]
  · have hjf : repetitiveJunk (pyWords (pyStrip s)) = false := bfalse_of_not_true hjunk
    constructor
    · intro hok
      exfalso
      rw [clean_generated_text] at hok
      simp only [hie, Bool.false_eq_true, if_false, hjf, if_true] at hok
      cases hfs : firstSep (pyStrip s) with
      | some sep =>
        rw [hfs] at hok
        have hsep : isWs sep = false := firstSep_not_ws hfs
        have hok2 : (match ((splitChar sep (pyStrip s)).map pyStrip).filter
            (fun p => !p.data.isEmpty) with
          | [] => (Except.error () : Except Unit String)
          | [p0] => Except.ok (pyStrip (p0 ++ String.mk [sep]))
          | p0 :: p1 :: _ =>
            Except.ok (pyStrip (p0 ++ String.mk [sep] ++ " " ++ p1 ++ String.mk [sep]))) =
            .ok "" := hok
        cases hparts :
            ((splitChar sep (pyStrip s)).map pyStrip).filter (fun p => !p.data.isEmpty) with
        | nil =>
          rw [hparts] at hok2
          exact Except.noConfusion hok2
        | cons p0 ps =>
          cases ps with
          | nil =>
            rw [hparts] at hok2
            injection hok2 with heq
            have hne : pyStrip (p0 ++ String.mk [sep]) ≠ "" := by
              refine pyStrip_ne_empty_of_countP _ ?_
              rw [String.data_append, List.countP_append]
              have h1 : ((String.mk [sep]).data.countP (fun c => !isWs c)) = 1 := by
                simp [List.countP_cons, hsep]
              omega
            exact hne heq
          | cons p1 ps' =>
            rw [hparts] at hok2
            injection hok2 with heq
            have hne : pyStrip (p0 ++ String.mk [sep] ++ " " ++ p1 ++ String.mk [sep]) ≠ "" := by
              refine pyStrip_ne_empty_of_countP _ ?_
              rw [String.data_append, List.countP_append]
              have h1 : ((String.mk [sep]).data.countP (fun c => !isWs c)) = 1 := by
                simp [List.countP_cons, hsep]
              omega
            exact hne heq
      | none =>
        rw [hfs] at hok
        have hok2 : Except.ok (if (pyStrip s).data.length ≤ 400 then pyStrip s
            else pyRsplitBefore ' ' (pyTake (pyStrip s) 400) ++ "...") =
            (Except.ok "" : Except Unit String) := hok
        injection hok2 with heq
        by_cases hlen : (pyStrip s).data.length ≤ 400
        · rw [if_pos hlen] at heq
          exact hs heq
        · rw [if_neg hlen] at heq
          have hd := congrArg String.data heq
          rw [String.data_append] at hd
          have h0 : (pyRsplitBefore ' ' (pyTake (pyStrip s) 400)).data.length +
              ("..." : String).data.length = 0 := by
            rw [← List.length_append, hd]
            rfl
          simp at h0
    · intro hj
      rw [hj] at hjf
      exact Bool.noConfusion hjf

/-- Counterexample to C5 as stated: a whitespace-only input returns the empty
string although it has zero words, so the "exactly when more than 5 words and
> 60 % repetition" biconditional fails on it. -/
theorem c5_cleaner_counterexample :
    clean_generated_text " " = .ok "" ∧ repetitiveJunk (pyWords " ") = false :=
  ⟨rfl, rfl⟩

/-- Witness for C5 (amended): a short non-repetitive sentence is not
rejected. -/
theorem c5_cleaner_amended_witness :
    pyStrip "echo upon stone" ≠ "" ∧
    (clean_generated_text "echo upon stone" = .ok "" ↔
      repetitiveJunk (pyWords (pyStrip "echo upon stone")) = true) :=
  ⟨by decide, c5_cleaner_amended.1 "echo upon stone" (by decide)⟩

/-!
### Orchestrator (claims C1 and C2)
-/

lemma is_valid_strip_len {g : String} (h : is_valid g = true) :
    10 ≤ (pyStrip g).data.length := by
  unfold is_valid at h
  by_cases h0 : g.data.isEmpty = true
  · rw [if_pos h0] at h
    exact Bool.noConfusion h
  · rw [if_neg h0] at h
    by_cases h1 : (pyStrip g).data.length < 10
    · rw [if_pos h1] at h
      exact Bool.noConfusion h
    · omega

lemma is_valid_strip_ne {g : String} (h : is_valid g = true) : pyStrip g ≠ "" := by
  intro he
  have := is_valid_strip_len h
  rw [he] at this
  simp at this

lemma ruleBranch_ok {env : Env} {ud : List (String × PyVal)} {mem : Store} {c : Nat}
    {r : GenResult} (h : ruleBranch env ud mem c = .ok r) :
    r.appends = c + 1 ∧ r.fortune ≠ "" := by
  unfold ruleBranch at h
  simp only [] at h
  split at h
  · exact Except.noConfusion h
  · split at h
    · injection h with h'
      subst h'
      refine ⟨rfl, fun he => ?_⟩
      have he2 : quietFallback = "" := he
      exact absurd he2 (by decide)
    · next hcond =>
      injection h with h'
      subst h'
      refine ⟨rfl, fun he => hcond ?_⟩
      have hde : ∀ s : String, s = "" → s.data.isEmpty = true := by
        intro s hs
        rw [hs]
        rfl
      have h1 := hde _ he
      rw [Bool.or_eq_true]
      exact Or.inl h1

lemma body_ok_fortune_ne {env : Env} {ud : List (String × PyVal)} {mem : Store}
    {r : GenResult} (h : generateFortuneBody env ud mem = .ok r) : r.fortune ≠ "" := by
  unfold generateFortuneBody at h
  split at h
  · split at h
    · split at h
      · next hv =>
        injection h with h'
        subst h'
        intro he
        exact is_valid_strip_ne hv he
      · exact (ruleBranch_ok h).2
    · exact (ruleBranch_ok h).2
  · exact (ruleBranch_ok h).2

/-- C1: `generate_fortune` is a total function into strings — the embedding
of the outer `try/except` — its result is never the empty string, and
whenever the body raises (which a dict-valued `name` can cause at
`load_memory().get(name, [])`), the caller receives exactly the fixed
non-empty placeholder sentence with the store untouched and nothing
appended. -/
theorem c1_total_nonempty_fallback (env : Env) (ud : List (String × PyVal)) (mem : Store) :
    (generate_fortune env ud mem).fortune ≠ "" ∧
    quietFallback = "The mirror is quiet right now. Try again in a little while." ∧
    (∀ e : Unit, generateFortuneBody env ud mem = .error e →
      generate_fortune env ud mem = ⟨quietFallback, mem, 0⟩) := by
  refine ⟨?_, rfl, ?_⟩
  · unfold generate_fortune
    cases hb : generateFortuneBody env ud mem with
    | error e =>
      intro he
      have he2 : quietFallback = "" := he
      exact absurd he2 (by decide)
    | ok r => exact body_ok_fortune_ne hb
  · intro e he
    unfold generate_fortune
    rw [he]

set_option maxRecDepth 100000 in
/-- Witness for C1: a dict-valued `name` drives the catastrophic path; the
caller still receives the placeholder (and no entry is appended). -/
theorem c1_total_nonempty_fallback_witness :
    (generate_fortune witnessEnv [("name", PyVal.dict [])] []).fortune ≠ "" ∧
    generate_fortune witnessEnv [("name", PyVal.dict [])] [] = ⟨quietFallback, [], 0⟩ :=
  ⟨(c1_total_nonempty_fallback witnessEnv [("name", PyVal.dict [])] []).1,
   (c1_total_nonempty_fallback witnessEnv [("name", PyVal.dict [])] []).2.2 () (by rfl)⟩

/-- C2 (amended): on every call whose body completes normally, exactly one
history entry is appended — except when an available generative backend's
output passes the cleaner but fails the orchestrator's validity check, in
which case exactly two entries are appended (one by the generative path, one
by the rule-based fallback). -/
theorem c2_append_count (env : Env) (ud : List (String × PyVal)) (mem : Store)
    (r : GenResult) (h : generateFortuneBody env ud mem = .ok r) :
    r.appends = if mlRejectedAfterAppend env ud mem = true then 2 else 1 := by
  unfold generateFortuneBody at h
  by_cases hta : env.transformersAvailable = true
  · rw [if_pos hta] at h
    cases hml : generate_ml_fortune env ud mem with
    | error e =>
      rw [hml] at h
      have h2 : ruleBranch env ud mem 0 = .ok r := h
      have hm : mlRejectedAfterAppend env ud mem = false := by
        unfold mlRejectedAfterAppend
        rw [hml]
        simp
      rw [hm]
      simpa using (ruleBranch_ok h2).1
    | ok pair =>
      obtain ⟨g, m1⟩ := pair
      rw [hml] at h
      by_cases hv : is_valid g = true
      · have h2 : (Except.ok ⟨pyStrip g, m1, 1⟩ : Except Unit GenResult) = .ok r := by
          have h3 : (if is_valid g = true then
              (Except.ok ⟨pyStrip g, m1, 1⟩ : Except Unit GenResult)
            else ruleBranch env ud m1 1) = .ok r := h
          rw [if_pos hv] at h3
          exact h3
        injection h2 with h'
        subst h'
        have hm : mlRejectedAfterAppend env ud mem = false := by
          unfold mlRejectedAfterAppend
          rw [hml]
          simp [hv]
        rw [hm]
        simp
      · have h2 : ruleBranch env ud m1 1 = .ok r := by
          have h3 : (if is_valid g = true then
              (Except.ok ⟨pyStrip g, m1, 1⟩ : Except Unit GenResult)
            else ruleBranch env ud m1 1) = .ok r := h
          rw [if_neg hv] at h3
          exact h3
        have hm : mlRejectedAfterAppend env ud mem = true := by
          unfold mlRejectedAfterAppend
          rw [hml]
          simp [hta, bfalse_of_not_true hv]
        rw [hm]
        simp only [if_true]
        rw [(ruleBranch_ok h2).1]
  · rw [if_neg hta] at h
    have hm : mlRejectedAfterAppend env ud mem = false := by
      unfold mlRejectedAfterAppend
      rw [bfalse_of_not_true hta]
      simp
    rw [hm]
    simpa using (ruleBranch_ok h).1

set_option maxRecDepth 1000000 in
/-- Counterexample to C2 as stated: on this call the generative text is
cleaned and appended by `generate_ml_fortune`, then rejected by `_is_valid`
(bad marker), and the rule-based fallback appends a second entry — two
`HistoryEntry`s for `"Ada"` in one returning call, never just one. -/
theorem c2_append_count_counterexample :
    (generate_fortune mlEnv mlUser []).appends = 2 ∧
    (storeGet (generate_fortune mlEnv mlUser []).store "Ada").length = 2 := by
  constructor
  · rfl
  · rfl

set_option maxRecDepth 100000 in
/-- Witness for C2 (amended) at a rule-based-only configuration: the body
completes normally and exactly one entry is appended. -/
theorem c2_append_count_witness :
    (generate_fortune witnessEnv mlUser []).appends =
      if mlRejectedAfterAppend witnessEnv mlUser [] = true then 2 else 1 := by
  have hb : (generateFortuneBody witnessEnv mlUser []).isOk = true := by rfl
  cases h : generateFortuneBody witnessEnv mlUser [] with
  | error e =>
    rw [h] at hb
    exact Bool.noConfusion hb
  | ok r =>
    have hr := c2_append_count witnessEnv mlUser [] r h
    unfold generate_fortune
    rw [h]
    exact hr

end Mirror
